import Mathlib

/-!
Verification of the SBOMVisor normalization / graph / enrichment pipeline
(`src/main.py`) against its natural-language specification.

The Python functions are shallowly embedded as pure Lean functions:

* a parsed JSON document is modelled by structures whose fields are
  `Option`-valued, mirroring the `'key' in dict` / `dict.get(key, default)`
  access patterns of the source;
* `process_cyclonedx_sbom`, `process_spdx_sbom` and `process_sbom` become
  list transformations;
* the graphviz `Digraph` built by `generate_dependency_tree` is modelled as
  an insertion-ordered association list of cluster subgraphs, each holding
  the `node(...)` and `edge(...)` statements issued on it, plus the list of
  edges issued directly on the top-level graph (the source issues none);
* the `TypeError` that Python raises when a raw string ends up in a
  `dependencies` list and happens to contain `"name"` as a substring
  (because `'name' in dependency` is a substring test on strings) is
  modelled with `Except`;
* the HTTP layer of `check_vulnerabilities` is modelled by an environment
  `String → Option Nat` giving, per library name, either the status code of
  the response or `none` for a raised `requests.RequestException`.
-/

/-- Nested child entry of a CycloneDX component (`comp['components'][i]`). -/
structure SubComp where
  type? : Option String
  name? : Option String
  version? : Option String
  deriving DecidableEq, Repr

/-- Ancestor entry of a CycloneDX pedigree section. -/
structure PedAncestor where
  type? : Option String
  name? : Option String
  version? : Option String
  purl? : Option String
  deriving DecidableEq, Repr

/-- Occurrence entry of a CycloneDX evidence section. -/
structure OccRef where
  bomRef? : Option String
  location? : Option String
  deriving DecidableEq, Repr

/-- The `pedigree` sub-document of a component. -/
structure PedigreeSec where
  ancestors? : Option (List PedAncestor)
  deriving DecidableEq, Repr

/-- The `evidence` sub-document of a component. -/
structure EvidenceSec where
  occurrences? : Option (List OccRef)
  deriving DecidableEq, Repr

/-- A top-level CycloneDX component entry. -/
structure CdxComp where
  type? : Option String
  name? : Option String
  version? : Option String
  group? : Option String
  purl? : Option String
  components? : Option (List SubComp)
  pedigree? : Option PedigreeSec
  evidence? : Option EvidenceSec
  deriving DecidableEq, Repr

/-- An entry of the global `dependencies` section of a CycloneDX document. -/
structure GlobalDep where
  ref? : Option String
  dependsOn? : Option (List String)
  deriving DecidableEq, Repr

/-- An SPDX package entry. -/
structure SpdxPackage where
  name? : Option String
  versionInfo? : Option String
  supplier? : Option String
  downloadLocation? : Option String
  filesAnalyzed? : Option Bool
  licenseConcluded? : Option String
  licenseDeclared? : Option String
  deriving DecidableEq, Repr

/-- A parsed SBOM document (the union of the keys the two format handlers
read: `components`/`dependencies` for CycloneDX, `packages` for SPDX). -/
structure Sbom where
  components? : Option (List CdxComp)
  dependencies? : Option (List GlobalDep)
  packages? : Option (List SpdxPackage)
  deriving DecidableEq, Repr

/-- An element of a processed component's `dependencies` list.  The source
stores dicts (for nested child components) and, after the global-dependency
pass, raw reference strings in the same Python list, so the model is a sum. -/
inductive DepEntry where
  | dict (type? : Option String) (name? : Option String) (version? : Option String)
  | str (s : String)
  deriving DecidableEq, Repr

/-- Pedigree entry recorded in a processed component (`dep_info['pedigree'][i]`). -/
structure PedEntry where
  type : String
  name : String
  version : String
  purl : String
  deriving DecidableEq, Repr

/-- Evidence entry recorded in a processed component. -/
structure OccEntry where
  bomRef : String
  location : String
  deriving DecidableEq, Repr

/-- The `dep_info` dict built by `process_cyclonedx_sbom` for one component. -/
structure DepInfo where
  type : String
  name : String
  version : String
  group : String
  purl : String
  dependencies : List DepEntry
  pedigree : List PedEntry
  evidence : List OccEntry
  deriving DecidableEq, Repr

/-- Translation of the nested-child loop body (`main.py` lines 87-92). -/
def mkChildEntry (sc : SubComp) : DepEntry :=
  DepEntry.dict (some (sc.type?.getD "Unknown")) (some (sc.name?.getD "Unknown"))
    (some (sc.version?.getD "Unknown"))

/-- Translation of the pedigree loop body (`main.py` lines 96-102): note the
source sets both `type` and `name` from `ancestor.get('type', 'Unknown')`. -/
def mkPedEntry (a : PedAncestor) : PedEntry :=
  { type := a.type?.getD "Unknown"
    name := a.type?.getD "Unknown"
    version := a.version?.getD "Unknown"
    purl := a.purl?.getD "" }

/-- Translation of the occurrence loop body (`main.py` lines 106-110). -/
def mkOccEntry (o : OccRef) : OccEntry :=
  { bomRef := o.bomRef?.getD ""
    location := o.location?.getD "" }

/-- Ancestors visited by the pedigree loop: present only when the component
has a `pedigree` key, with default `[]` for a missing `ancestors` key. -/
def ancestorsOf (c : CdxComp) : List PedAncestor :=
  match c.pedigree? with
  | some p => p.ancestors?.getD []
  | none => []

/-- Occurrences visited by the evidence loop: requires both the `evidence`
key and the `occurrences` key inside it. -/
def occurrencesOf (c : CdxComp) : List OccRef :=
  match c.evidence? with
  | some e => e.occurrences?.getD []
  | none => []

/-- The `dep_info` dict built for one component (`main.py` lines 74-111). -/
def mkDepInfo (c : CdxComp) : DepInfo :=
  { type := c.type?.getD "Unknown"
    name := c.name?.getD "Unknown"
    version := c.version?.getD "Unknown"
    group := c.group?.getD ""
    purl := c.purl?.getD ""
    dependencies := (c.components?.getD []).map mkChildEntry
    pedigree := (ancestorsOf c).map mkPedEntry
    evidence := (occurrencesOf c).map mkOccEntry }

/-- Effect of one global-dependency entry on one processed component
(`main.py` lines 119-121): when the component's `name` or `purl` equals the
entry's `ref`, the raw `dependsOn` strings are appended to its
`dependencies` list. -/
def applyGlobalDepOne (gd : GlobalDep) (d : DepInfo) : DepInfo :=
  if d.name == gd.ref?.getD "" || d.purl == gd.ref?.getD "" then
    { d with dependencies := d.dependencies ++ (gd.dependsOn?.getD []).map DepEntry.str }
  else d

/-- Translation of one iteration of the global-dependency loop
(`main.py` lines 115-121). -/
def applyGlobalDep (ds : List DepInfo) (gd : GlobalDep) : List DepInfo :=
  ds.map (applyGlobalDepOne gd)

/-- Translation of `process_cyclonedx_sbom` (`main.py` lines 62-123). -/
def process_cyclonedx_sbom (s : Sbom) : List DepInfo :=
  (s.dependencies?.getD []).foldl applyGlobalDep ((s.components?.getD []).map mkDepInfo)

/-- Processed SPDX package record. -/
structure SpdxInfo where
  name : String
  version : String
  supplier : String
  downloadLocation : String
  filesAnalyzed : Bool
  licenseConcluded : String
  licenseDeclared : String
  deriving DecidableEq, Repr

/-- Translation of the SPDX package loop body (`main.py` lines 173-182). -/
def mkSpdxInfo (p : SpdxPackage) : SpdxInfo :=
  { name := p.name?.getD "Unknown"
    version := p.versionInfo?.getD "Unknown"
    supplier := p.supplier?.getD "Unknown"
    downloadLocation := p.downloadLocation?.getD "Unknown"
    filesAnalyzed := p.filesAnalyzed?.getD false
    licenseConcluded := p.licenseConcluded?.getD "Unknown"
    licenseDeclared := p.licenseDeclared?.getD "Unknown" }

/-- Translation of `process_spdx_sbom` (`main.py` lines 160-185). -/
def process_spdx_sbom (s : Sbom) : List SpdxInfo :=
  (s.packages?.getD []).map mkSpdxInfo

/-- A processed entry of either format: the source returns heterogeneous
dicts in one list, modelled here as a tagged union. -/
inductive ProcEntry where
  | cyclonedx (d : DepInfo)
  | spdx (p : SpdxInfo)
  deriving DecidableEq, Repr

/-- Translation of `process_sbom` (`main.py` lines 138-158): dispatch on the
format tag, empty result for an unrecognized tag. -/
def process_sbom (s : Sbom) (fmt : String) : List ProcEntry :=
  if fmt == "cyclonedx" then (process_cyclonedx_sbom s).map ProcEntry.cyclonedx
  else if fmt == "spdx" then (process_spdx_sbom s).map ProcEntry.spdx
  else []

/-- Decides whether `pat` occurs at the head of `s`. -/
def leadsWith : List Char → List Char → Bool
  | [], _ => true
  | _ :: _, [] => false
  | p :: ps, c :: cs => p == c && leadsWith ps cs

/-- Decides whether `pat` occurs as a contiguous sublist of `s`; this is the
semantics of Python's `pat in s` on strings. -/
def containsSub (pat : List Char) : List Char → Bool
  | [] => leadsWith pat []
  | c :: cs => leadsWith pat (c :: cs) || containsSub pat cs

/-- Input row of `generate_dependency_tree`: the keys the function reads
from each component dict. -/
structure TComp where
  name? : Option String
  version? : Option String
  cluster? : Option String
  dependencies? : Option (List DepEntry)
  deriving DecidableEq, Repr

/-- View of a processed CycloneDX component as a `generate_dependency_tree`
input row: `dep_info` always carries `name`, `version` and `dependencies`
keys and never a `cluster` key. -/
def DepInfo.toT (d : DepInfo) : TComp :=
  { name? := some d.name
    version? := some d.version
    cluster? := none
    dependencies? := some d.dependencies }

/-- One cluster subgraph: its label attribute and the `node` / `edge`
statements issued on it, in order.  A node is `(name, label)`; an edge is
`(source, target, label)`. -/
structure ClusterG where
  label : String
  nodes : List (String × String)
  edges : List (String × String × String)
  deriving DecidableEq, Repr

/-- The graph built by `generate_dependency_tree`: the cluster dictionary in
insertion order, plus edges issued directly on the top-level digraph (the
source issues none, but the claims quantify over them). -/
structure GraphOut where
  clusters : List (String × ClusterG)
  topEdges : List (String × String × String)
  deriving DecidableEq, Repr

/-- Lookup in the cluster dictionary (first entry with the given key). -/
def clustersFind (cs : List (String × ClusterG)) (k : String) : Option ClusterG :=
  (cs.find? fun p => p.1 == k).map Prod.snd

/-- Replacement of the value stored under `k` (first matching entry). -/
def clustersUpdate : List (String × ClusterG) → String → ClusterG → List (String × ClusterG)
  | [], _, _ => []
  | (k', c') :: rest, k, c =>
    if k' == k then (k', c) :: rest else (k', c') :: clustersUpdate rest k c

/-- A fresh cluster as created on first use (`main.py` lines 218-220). -/
def emptyCluster (k : String) : ClusterG :=
  { label := k, nodes := [], edges := [] }

/-- Name of the `name` key, as a character list for the substring test. -/
def nameChars : List Char := "name".toList

/-- The key a dependency entry would yield for the `'name' in dependency`
test followed by `dependency['name']`: `some n` for a dict holding a name. -/
def depEntryName : DepEntry → Option String
  | DepEntry.dict _ n? _ => n?
  | DepEntry.str _ => none

/-- Translation of the body of the dependency loop for a single entry
(`main.py` lines 230-235).  A dict with a `name` key yields an edge; a dict
without one is skipped; a raw string is skipped unless it contains
`"name"` as a substring, in which case Python's `dependency['name']`
raises `TypeError`. -/
def depEdge (src : String) : DepEntry → Except String (Option (String × String × String))
  | DepEntry.dict _ n? v? =>
    match n? with
    | some n => Except.ok (some (src, n, "Version: " ++ v?.getD "Unknown"))
    | none => Except.ok none
  | DepEntry.str s =>
    if containsSub nameChars s.toList then Except.error "TypeError" else Except.ok none

/-- The edges issued for a component's dependency list, in order; an error
aborts the whole run as the Python exception would. -/
def depEdges (src : String) : List DepEntry → Except String (List (String × String × String))
  | [] => Except.ok []
  | de :: rest =>
    match depEdge src de with
    | Except.error msg => Except.error msg
    | Except.ok none => depEdges src rest
    | Except.ok (some e) =>
      match depEdges src rest with
      | Except.error msg => Except.error msg
      | Except.ok es => Except.ok (e :: es)

/-- Translation of one iteration of the component loop of
`generate_dependency_tree` (`main.py` lines 211-235): skip components with
no `name` key; otherwise find or create the cluster, add the node, and add
one edge per named dependency entry to that same cluster. -/
def processComponent (g : GraphOut) (c : TComp) : Except String GraphOut :=
  match c.name? with
  | none => Except.ok g
  | some cname =>
    let ckey := c.cluster?.getD "default"
    let base :=
      match clustersFind g.clusters ckey with
      | some cl => cl
      | none => emptyCluster ckey
    let clusters0 :=
      match clustersFind g.clusters ckey with
      | some _ => g.clusters
      | none => g.clusters ++ [(ckey, emptyCluster ckey)]
    match depEdges cname (c.dependencies?.getD []) with
    | Except.error msg => Except.error msg
    | Except.ok es =>
      Except.ok
        { clusters :=
            clustersUpdate clusters0 ckey
              { base with
                  nodes := base.nodes ++ [(cname, cname ++ "\n" ++ c.version?.getD "Unknown")]
                  edges := base.edges ++ es }
          topEdges := g.topEdges }

/-- The component loop of `generate_dependency_tree`. -/
def genTreeAux : GraphOut → List TComp → Except String GraphOut
  | g, [] => Except.ok g
  | g, c :: rest =>
    match processComponent g c with
    | Except.error msg => Except.error msg
    | Except.ok g' => genTreeAux g' rest

/-- Translation of `generate_dependency_tree` (`main.py` lines 203-244). -/
def generate_dependency_tree (l : List TComp) : Except String GraphOut :=
  genTreeAux { clusters := [], topEdges := [] } l

/-- The node names of one cluster. -/
def clusterNodeNames (cl : ClusterG) : List String :=
  cl.nodes.map Prod.fst

/-- All node names of the graph, across clusters. -/
def GraphOut.nodeNames (g : GraphOut) : List String :=
  g.clusters.flatMap fun p => clusterNodeNames p.2

/-- All edges of the graph: cluster edges plus top-level edges. -/
def GraphOut.allEdges (g : GraphOut) : List (String × String × String) :=
  (g.clusters.flatMap fun p => p.2.edges) ++ g.topEdges

/-- All (source, target) pairs of the graph's edges. -/
def edgePairs (g : GraphOut) : List (String × String) :=
  g.allEdges.map fun e => (e.1, e.2.1)

/-- The pipeline of `main` for a CycloneDX document: `process_sbom` followed
by `generate_dependency_tree` over the processed component dicts. -/
def pipeline_cyclonedx (s : Sbom) : Except String GraphOut :=
  generate_dependency_tree ((process_cyclonedx_sbom s).map DepInfo.toT)

/-- Outcomes a `check_vulnerabilities` call can produce: the status code
returned on a 200 response, the implicit Python `None` on any other status,
or the `{}` returned when `requests.get` raises. -/
inductive VulnOutcome where
  | statusCode (n : Nat)
  | pyNone
  | emptyDict
  deriving DecidableEq, Repr

/-- Translation of `check_vulnerabilities` (`main.py` lines 253-264) over an
HTTP environment `env` mapping a library name to `some status` for a
response or `none` for a raised request exception. -/
def check_vulnerabilities (env : String → Option Nat) (library : String) : VulnOutcome :=
  match env library with
  | some code => if code == 200 then VulnOutcome.statusCode code else VulnOutcome.pyNone
  | none => VulnOutcome.emptyDict

/-- Translation of the loop of `check_all_vulnerabilites` (`main.py` lines
246-251), instrumented with the trace of lookup calls issued: returns the
report entries in insertion order and the list of library names passed to
`check_vulnerabilities`, one per loop iteration. -/
def check_all_aux (env : String → Option Nat) : List DepInfo → List (String × VulnOutcome) × List String
  | [] => ([], [])
  | d :: rest =>
    let r := check_vulnerabilities env d.name
    let (rep, tr) := check_all_aux env rest
    ((d.name, r) :: rep, d.name :: tr)

/-- Translation of `check_all_vulnerabilites` (typo preserved from the
source): the vulnerability report dict, as its entries in insertion order. -/
def check_all_vulnerabilites (env : String → Option Nat) (deps : List DepInfo) :
    List (String × VulnOutcome) :=
  (check_all_aux env deps).1

/-- Lookup in the report with Python dict semantics: the last assignment to
a key wins. -/
def dictGet : List (String × VulnOutcome) → String → Option VulnOutcome
  | [], _ => none
  | (k', v) :: rest, k =>
    match dictGet rest k with
    | some v' => some v'
    | none => if k' == k then some v else none

/-- State-threaded translation of `generate_dependency_tree`: the input list
plays the role of the mutable Python list of component dicts, read by index
at each iteration and passed along explicitly, so that the frame property
(the projection never writes to its input) is statable. -/
def genTreeStStep (acc : Except String GraphOut × List TComp) (i : Nat) :
    Except String GraphOut × List TComp :=
  match acc.1 with
  | Except.error msg => (Except.error msg, acc.2)
  | Except.ok g =>
    match acc.2[i]? with
    | none => (Except.ok g, acc.2)
    | some c => (processComponent g c, acc.2)

/-- The state-threaded form of `generate_dependency_tree`: result together
with the final value of the input store. -/
def generate_dependency_tree_st (store : List TComp) :
    Except String GraphOut × List TComp :=
  (List.range store.length).foldl genTreeStStep
    (Except.ok { clusters := [], topEdges := [] }, store)

/-- Field-for-field extension of a processed component: the global
dependency pass only ever appends to the `dependencies` list. -/
def ExtendsDep (d0 d : DepInfo) : Prop :=
  d.type = d0.type ∧ d.name = d0.name ∧ d.version = d0.version ∧
  d.group = d0.group ∧ d.purl = d0.purl ∧ d.pedigree = d0.pedigree ∧
  d.evidence = d0.evidence ∧ ∃ extra, d.dependencies = d0.dependencies ++ extra

/-- Erasure of every pedigree ancestor's `name` field in a document. -/
def eraseAnc (a : PedAncestor) : PedAncestor :=
  { a with name? := none }

/-- Erasure of ancestor names in one component. -/
def eraseComp (c : CdxComp) : CdxComp :=
  { c with
      pedigree? := c.pedigree?.map fun p =>
        { p with ancestors? := p.ancestors?.map (List.map eraseAnc) } }

/-- Erasure of ancestor names in a whole document. -/
def eraseAncestorNames (s : Sbom) : Sbom :=
  { s with components? := s.components?.map (List.map eraseComp) }

/-- Nested child `B v2` of component `A` in the spec's concrete scenario. -/
def subB : SubComp :=
  { type? := some "library", name? := some "B", version? := some "2" }

/-- Component `A v1`, nesting `B` as a child. -/
def compA : CdxComp :=
  { type? := some "library", name? := some "A", version? := some "1"
    group? := none, purl? := none, components? := some [subB]
    pedigree? := none, evidence? := none }

/-- Component `B v2`. -/
def compB : CdxComp :=
  { type? := some "library", name? := some "B", version? := some "2"
    group? := none, purl? := none, components? := none
    pedigree? := none, evidence? := none }

/-- Component `C v1`. -/
def compC : CdxComp :=
  { type? := some "library", name? := some "C", version? := some "1"
    group? := none, purl? := none, components? := none
    pedigree? := none, evidence? := none }

/-- The spec's concrete scenario document: components `{A v1, B v2, C v1}`,
`A` nesting `B`, and a global edge `A dependsOn ["C"]`. -/
def c4Sbom : Sbom :=
  { components? := some [compA, compB, compC]
    dependencies? := some [{ ref? := some "A", dependsOn? := some ["C"] }]
    packages? := none }

/-- The same document with the global edge referencing `"Z"`. -/
def zSbom : Sbom :=
  { components? := some [compA, compB, compC]
    dependencies? := some [{ ref? := some "A", dependsOn? := some ["Z"] }]
    packages? := none }

/-- The graph the code actually builds for `c4Sbom`: nodes `A`, `B`, `C` in
the default cluster and the single nested-child edge `A → B`. -/
def c4Graph : GraphOut :=
  { clusters :=
      [("default",
        { label := "default"
          nodes := [("A", "A\n1"), ("B", "B\n2"), ("C", "C\n1")]
          edges := [("A", "B", "Version: 2")] })]
    topEdges := [] }

/-- The graph the code builds for `zSbom` (identical to `c4Graph`: the raw
reference string is dropped either way). -/
def zGraph : GraphOut :=
  { clusters :=
      [("default",
        { label := "default"
          nodes := [("A", "A\n1"), ("B", "B\n2"), ("C", "C\n1")]
          edges := [("A", "B", "Version: 2")] })]
    topEdges := [] }

/-- Document with a single component `A` nesting child `B`. -/
def c3Sbom : Sbom :=
  { components? := some [compA], dependencies? := none, packages? := none }

/-- Cross-cluster scenario: component `X` in cluster `c1` depending on `Y`,
which lives in cluster `c2`. -/
def c5X : TComp :=
  { name? := some "X", version? := none, cluster? := some "c1"
    dependencies? := some [DepEntry.dict none (some "Y") none] }

/-- Component `Y` of cluster `c2`. -/
def c5Y : TComp :=
  { name? := some "Y", version? := none, cluster? := some "c2"
    dependencies? := none }

/-- The cross-cluster input list. -/
def c5in : List TComp := [c5X, c5Y]

/-- Cluster `c1` as built: it receives the cross-cluster edge `X → Y` even
though `Y` is not one of its nodes. -/
def c5cl1 : ClusterG :=
  { label := "c1"
    nodes := [("X", "X\nUnknown")]
    edges := [("X", "Y", "Version: Unknown")] }

/-- Cluster `c2` as built. -/
def c5cl2 : ClusterG :=
  { label := "c2", nodes := [("Y", "Y\nUnknown")], edges := [] }

/-- The graph built for `c5in`. -/
def c5Graph : GraphOut :=
  { clusters := [("c1", c5cl1), ("c2", c5cl2)], topEdges := [] }

/-- Single component `A` with a named dependency `B`, for witnessing the
edge-source invariant. -/
def c7A : TComp :=
  { name? := some "A", version? := none, cluster? := none
    dependencies? := some [DepEntry.dict none (some "B") none] }

/-- The witness input list for the edge-source invariant. -/
def c7in : List TComp := [c7A]

/-- The graph built for `c7in`. -/
def c7Graph : GraphOut :=
  { clusters :=
      [("default",
        { label := "default"
          nodes := [("A", "A\nUnknown")]
          edges := [("A", "B", "Version: Unknown")] })]
    topEdges := [] }

/-- First of two distinct processed entries sharing identity `("A", "1")`. -/
def c2d1 : DepInfo :=
  { type := "library", name := "A", version := "1", group := "g1", purl := ""
    dependencies := [], pedigree := [], evidence := [] }

/-- Second entry with the same `(name, version)` identity but a different
`group`, so the two entries are distinct. -/
def c2d2 : DepInfo :=
  { type := "library", name := "A", version := "1", group := "g2", purl := ""
    dependencies := [], pedigree := [], evidence := [] }

/-- An HTTP environment answering 200 for every library. -/
def env200 : String → Option Nat := fun _ => some 200

/-- Processed entry named `A`, used in the failure-isolation witness. -/
def c6dA : DepInfo :=
  { type := "library", name := "A", version := "1", group := "", purl := ""
    dependencies := [], pedigree := [], evidence := [] }

/-- Processed entry named `B`. -/
def c6dB : DepInfo :=
  { type := "library", name := "B", version := "2", group := "", purl := ""
    dependencies := [], pedigree := [], evidence := [] }

/-- An HTTP environment where the request for `A` raises and every other
request answers 200. -/
def env6 : String → Option Nat := fun n => if n == "A" then none else some 200

/-- A pedigree ancestor carrying both a `type` and its own `name`. -/
def c10anc : PedAncestor :=
  { type? := some "git", name? := some "orig-name", version? := none, purl? := none }

/-- A component carrying a pedigree section with one ancestor. -/
def c10comp : CdxComp :=
  { type? := some "library", name? := some "P", version? := some "1"
    group? := none, purl? := none, components? := none
    pedigree? := some { ancestors? := some [c10anc] }, evidence? := none }

/-- The document holding `c10comp`. -/
def c10Sbom : Sbom :=
  { components? := some [c10comp], dependencies? := none, packages? := none }

/-- The processed record for `c10comp`. -/
def c10d : DepInfo := mkDepInfo c10comp

/-- The processed record for component `A` of `zSbom`: the nested child
entry for `B` followed by the appended raw reference string `"Z"`. -/
def zA : DepInfo :=
  { type := "library", name := "A", version := "1", group := "", purl := ""
    dependencies := [mkChildEntry subB, DepEntry.str "Z"]
    pedigree := [], evidence := [] }

/-- The scenario document with an unresolved target that contains `"name"`
as a substring, which makes Python's `dependency['name']` raise
`TypeError` during graph construction. -/
def nameSbom : Sbom :=
  { components? := some [compA, compB, compC]
    dependencies? := some [{ ref? := some "A", dependsOn? := some ["lib-name-2"] }]
    packages? := none }

/-! ## Helper lemmas about the graph construction -/

/-- A successful `depEdge` yields an edge whose source is the component and
whose target is the entry's recorded name. -/
theorem depEdge_spec {src : String} {de : DepEntry} {e : String × String × String}
    (h : depEdge src de = Except.ok (some e)) :
    e.1 = src ∧ depEntryName de = some e.2.1 := by
  cases de with
  | dict t? n? v? =>
    cases n? with
    | some n =>
      simp only [depEdge] at h
      cases h
      exact ⟨rfl, rfl⟩
    | none => simp [depEdge] at h
  | str s =>
    simp only [depEdge] at h
    by_cases hc : containsSub nameChars s.toList = true
    · rw [if_pos hc] at h; cases h
    · rw [if_neg hc] at h; cases h

/-- Every edge issued for a dependency list has the component as its source
and a named dict entry of the list as its target. -/
theorem depEdges_spec {src : String} {ds : List DepEntry} {es : List (String × String × String)}
    (h : depEdges src ds = Except.ok es) :
    ∀ e ∈ es, e.1 = src ∧ ∃ de ∈ ds, depEntryName de = some e.2.1 := by
  induction ds generalizing es with
  | nil =>
    unfold depEdges at h
    cases h
    intro e he
    simp at he
  | cons de rest ih =>
    unfold depEdges at h
    cases hde : depEdge src de with
    | error msg => rw [hde] at h; cases h
    | ok e? =>
      rw [hde] at h
      cases e? with
      | none =>
        intro e he
        obtain ⟨h1, de', hde', h2⟩ := ih h e he
        exact ⟨h1, de', List.mem_cons_of_mem _ hde', h2⟩
      | some e0 =>
        cases hrest : depEdges src rest with
        | error msg => rw [hrest] at h; cases h
        | ok es' =>
          rw [hrest] at h
          cases h
          intro e he
          rcases List.mem_cons.mp he with h1 | h1
          · subst h1
            obtain ⟨hs, hn⟩ := depEdge_spec hde
            exact ⟨hs, de, List.mem_cons_self _ _, hn⟩
          · obtain ⟨h2, de', hde', h3⟩ := ih hrest e h1
            exact ⟨h2, de', List.mem_cons_of_mem _ hde', h3⟩

/-- A successful cluster lookup returns a value paired with that key in the
dictionary. -/
theorem clustersFind_mem {cs : List (String × ClusterG)} {k : String} {cl : ClusterG}
    (h : clustersFind cs k = some cl) : (k, cl) ∈ cs := by
  unfold clustersFind at h
  cases hf : cs.find? (fun p => p.1 == k) with
  | none => rw [hf] at h; cases h
  | some p =>
    rw [hf] at h
    cases h
    have hp := List.find?_some hf
    have hmem := List.mem_of_find?_eq_some hf
    have hk : p.1 = k := by simpa using hp
    have : (k, p.2) = p := by
      cases p
      simp_all
    rw [this]
    exact hmem

/-- Every entry of the updated dictionary is an old entry or carries the new
value. -/
theorem mem_clustersUpdate {cs : List (String × ClusterG)} {k : String} {c : ClusterG} :
    ∀ p ∈ clustersUpdate cs k c, p ∈ cs ∨ p.2 = c := by
  induction cs with
  | nil => intro p hp; simp [clustersUpdate] at hp
  | cons hd tl ih =>
    intro p hp
    rcases hd with ⟨k', c'⟩
    unfold clustersUpdate at hp
    by_cases hk : (k' == k) = true
    · rw [if_pos hk] at hp
      rcases List.mem_cons.mp hp with h1 | h1
      · right; rw [h1]
      · left; exact List.mem_cons_of_mem _ h1
    · rw [if_neg hk] at hp
      rcases List.mem_cons.mp hp with h1 | h1
      · left; rw [h1]; exact List.mem_cons_self _ _
      · rcases ih p h1 with h2 | h2
        · left; exact List.mem_cons_of_mem _ h2
        · right; exact h2

/-- Characterization of a successful `processComponent` step on a named
component: the graph is updated at the component's cluster key, the node is
appended, and the issued edges are appended, with the cluster either looked
up in the dictionary or freshly created. -/
theorem processComponent_ok {g g' : GraphOut} {c : TComp} {cname : String}
    (hn : c.name? = some cname)
    (h : processComponent g c = Except.ok g') :
    ∃ es base clusters0,
      depEdges cname (c.dependencies?.getD []) = Except.ok es ∧
      ((c.cluster?.getD "default", base) ∈ g.clusters ∨
        base = emptyCluster (c.cluster?.getD "default")) ∧
      (clusters0 = g.clusters ∨
        clusters0 = g.clusters ++
          [(c.cluster?.getD "default", emptyCluster (c.cluster?.getD "default"))]) ∧
      g' = { clusters :=
               clustersUpdate clusters0 (c.cluster?.getD "default")
                 { base with
                     nodes := base.nodes ++ [(cname, cname ++ "\n" ++ c.version?.getD "Unknown")]
                     edges := base.edges ++ es }
             topEdges := g.topEdges } := by
  unfold processComponent at h
  rw [hn] at h
  simp only [] at h
  cases hf : clustersFind g.clusters (c.cluster?.getD "default") with
  | some cl =>
    rw [hf] at h
    cases hd : depEdges cname (c.dependencies?.getD []) with
    | error msg => rw [hd] at h; cases h
    | ok es =>
      rw [hd] at h
      cases h
      exact ⟨es, cl, g.clusters, rfl, Or.inl (clustersFind_mem hf), Or.inl rfl, rfl⟩
  | none =>
    rw [hf] at h
    cases hd : depEdges cname (c.dependencies?.getD []) with
    | error msg => rw [hd] at h; cases h
    | ok es =>
      rw [hd] at h
      cases h
      exact ⟨es, emptyCluster _, _, rfl, Or.inr rfl, Or.inr rfl, rfl⟩

/-- A `processComponent` step never touches the top-level edge list. -/
theorem processComponent_topEdges {g g' : GraphOut} {c : TComp}
    (h : processComponent g c = Except.ok g') : g'.topEdges = g.topEdges := by
  cases hn : c.name? with
  | none => unfold processComponent at h; rw [hn] at h; cases h; rfl
  | some cname =>
    obtain ⟨es, base, cs0, -, -, -, hg'⟩ := processComponent_ok hn h
    rw [hg']

/-- A `processComponent` step preserves the invariant that every edge of a
cluster has its source among that cluster's own nodes. -/
theorem processComponent_edges_in_cluster {g g' : GraphOut} {c : TComp}
    (h : processComponent g c = Except.ok g')
    (hP : ∀ p ∈ g.clusters, ∀ e ∈ p.2.edges, e.1 ∈ clusterNodeNames p.2) :
    ∀ p ∈ g'.clusters, ∀ e ∈ p.2.edges, e.1 ∈ clusterNodeNames p.2 := by
  cases hn : c.name? with
  | none => unfold processComponent at h; rw [hn] at h; cases h; exact hP
  | some cname =>
    obtain ⟨es, base, cs0, hd, hbase, hcs0, hg'⟩ := processComponent_ok hn h
    subst hg'
    intro p hp e he
    rcases mem_clustersUpdate p hp with hmem | hval
    · rcases hcs0 with h0 | h0
      · exact hP p (h0 ▸ hmem) e he
      · rw [h0] at hmem
        rcases List.mem_append.mp hmem with h1 | h1
        · exact hP p h1 e he
        · have h2 : p = (c.cluster?.getD "default", emptyCluster (c.cluster?.getD "default")) := by
            simpa using h1
          rw [h2] at he
          simp [emptyCluster] at he
    · rw [hval] at he ⊢
      have hnames :
          clusterNodeNames
            { base with
                nodes := base.nodes ++ [(cname, cname ++ "\n" ++ c.version?.getD "Unknown")]
                edges := base.edges ++ es } = clusterNodeNames base ++ [cname] := by
        simp [clusterNodeNames]
      rcases List.mem_append.mp he with h1 | h1
      · rcases hbase with hb | hb
        · have h2 := hP _ hb e h1
          rw [hnames]
          exact List.mem_append_left _ h2
        · rw [hb] at h1
          simp [emptyCluster] at h1
      · have h2 := (depEdges_spec hd e h1).1
        rw [hnames, h2]
        exact List.mem_append_right _ (by simp)

/-- Every node name after a `processComponent` step is an old node name or
the processed component's own name. -/
theorem processComponent_nodes {g g' : GraphOut} {c : TComp}
    (h : processComponent g c = Except.ok g') :
    ∀ n ∈ g'.nodeNames, n ∈ g.nodeNames ∨ c.name? = some n := by
  cases hn : c.name? with
  | none =>
    unfold processComponent at h; rw [hn] at h; cases h
    exact fun n hn' => Or.inl hn'
  | some cname =>
    obtain ⟨es, base, cs0, hd, hbase, hcs0, hg'⟩ := processComponent_ok hn h
    subst hg'
    intro n hmem
    rw [GraphOut.nodeNames, List.mem_flatMap] at hmem
    obtain ⟨p, hp, hnp⟩ := hmem
    rcases mem_clustersUpdate p hp with hmem2 | hval
    · rcases hcs0 with h0 | h0
      · exact Or.inl (List.mem_flatMap.mpr ⟨p, h0 ▸ hmem2, hnp⟩)
      · rw [h0] at hmem2
        rcases List.mem_append.mp hmem2 with h1 | h1
        · exact Or.inl (List.mem_flatMap.mpr ⟨p, h1, hnp⟩)
        · have h2 : p = (c.cluster?.getD "default", emptyCluster (c.cluster?.getD "default")) := by
            simpa using h1
          rw [h2] at hnp
          simp [emptyCluster, clusterNodeNames] at hnp
    · rw [hval] at hnp
      have hnames :
          clusterNodeNames
            { base with
                nodes := base.nodes ++ [(cname, cname ++ "\n" ++ c.version?.getD "Unknown")]
                edges := base.edges ++ es } = clusterNodeNames base ++ [cname] := by
        simp [clusterNodeNames]
      rw [hnames] at hnp
      rcases List.mem_append.mp hnp with h1 | h1
      · rcases hbase with hb | hb
        · exact Or.inl (List.mem_flatMap.mpr ⟨_, hb, h1⟩)
        · rw [hb] at h1
          simp [emptyCluster, clusterNodeNames] at h1
      · have h2 : n = cname := by simpa using h1
        subst h2
        exact Or.inr rfl

/-- Every edge after a `processComponent` step is an old edge or targets the
recorded name of one of the processed component's dependency entries. -/
theorem processComponent_edges {g g' : GraphOut} {c : TComp}
    (h : processComponent g c = Except.ok g') :
    ∀ e ∈ g'.allEdges, e ∈ g.allEdges ∨
      ∃ de ∈ c.dependencies?.getD [], depEntryName de = some e.2.1 := by
  cases hn : c.name? with
  | none =>
    unfold processComponent at h; rw [hn] at h; cases h
    exact fun e he => Or.inl he
  | some cname =>
    obtain ⟨es, base, cs0, hd, hbase, hcs0, hg'⟩ := processComponent_ok hn h
    subst hg'
    intro e he
    rw [GraphOut.allEdges] at he
    rcases List.mem_append.mp he with hcl | htop
    · rw [List.mem_flatMap] at hcl
      obtain ⟨p, hp, hep⟩ := hcl
      rcases mem_clustersUpdate p hp with hmem2 | hval
      · rcases hcs0 with h0 | h0
        · exact Or.inl (List.mem_append_left _ (List.mem_flatMap.mpr ⟨p, h0 ▸ hmem2, hep⟩))
        · rw [h0] at hmem2
          rcases List.mem_append.mp hmem2 with h1 | h1
          · exact Or.inl (List.mem_append_left _ (List.mem_flatMap.mpr ⟨p, h1, hep⟩))
          · have h2 : p = (c.cluster?.getD "default", emptyCluster (c.cluster?.getD "default")) := by
              simpa using h1
            rw [h2] at hep
            simp [emptyCluster] at hep
      · rw [hval] at hep
        rcases List.mem_append.mp hep with h1 | h1
        · rcases hbase with hb | hb
          · exact Or.inl (List.mem_append_left _ (List.mem_flatMap.mpr ⟨_, hb, h1⟩))
          · rw [hb] at h1
            simp [emptyCluster] at h1
        · exact Or.inr (depEdges_spec hd e h1).2
    · exact Or.inl (List.mem_append_right _ htop)

/-- The component loop preserves the per-cluster edge-source invariant. -/
theorem genTreeAux_edges_in_cluster :
    ∀ {l : List TComp} {g g' : GraphOut}, genTreeAux g l = Except.ok g' →
      (∀ p ∈ g.clusters, ∀ e ∈ p.2.edges, e.1 ∈ clusterNodeNames p.2) →
      ∀ p ∈ g'.clusters, ∀ e ∈ p.2.edges, e.1 ∈ clusterNodeNames p.2 := by
  intro l
  induction l with
  | nil => intro g g' h hP; unfold genTreeAux at h; cases h; exact hP
  | cons c rest ih =>
    intro g g' h hP
    unfold genTreeAux at h
    cases hpc : processComponent g c with
    | error msg => rw [hpc] at h; cases h
    | ok g1 =>
      rw [hpc] at h
      exact ih h (processComponent_edges_in_cluster hpc hP)

/-- The component loop never adds top-level edges. -/
theorem genTreeAux_topEdges :
    ∀ {l : List TComp} {g g' : GraphOut}, genTreeAux g l = Except.ok g' →
      g'.topEdges = g.topEdges := by
  intro l
  induction l with
  | nil => intro g g' h; unfold genTreeAux at h; cases h; rfl
  | cons c rest ih =>
    intro g g' h
    unfold genTreeAux at h
    cases hpc : processComponent g c with
    | error msg => rw [hpc] at h; cases h
    | ok g1 =>
      rw [hpc] at h
      rw [ih h, processComponent_topEdges hpc]

/-- Every node name produced by the component loop is an initial node name
or the name of some input component. -/
theorem genTreeAux_nodes :
    ∀ {l : List TComp} {g g' : GraphOut}, genTreeAux g l = Except.ok g' →
      ∀ n ∈ g'.nodeNames, n ∈ g.nodeNames ∨ ∃ c ∈ l, c.name? = some n := by
  intro l
  induction l with
  | nil =>
    intro g g' h n hn
    unfold genTreeAux at h; cases h
    exact Or.inl hn
  | cons c rest ih =>
    intro g g' h n hn
    unfold genTreeAux at h
    cases hpc : processComponent g c with
    | error msg => rw [hpc] at h; cases h
    | ok g1 =>
      rw [hpc] at h
      rcases ih h n hn with h1 | ⟨c', hc', h2⟩
      · rcases processComponent_nodes hpc n h1 with h2 | h2
        · exact Or.inl h2
        · exact Or.inr ⟨c, List.mem_cons_self _ _, h2⟩
      · exact Or.inr ⟨c', List.mem_cons_of_mem _ hc', h2⟩

/-- Every edge produced by the component loop is an initial edge or targets
a named dependency entry of some input component. -/
theorem genTreeAux_edges :
    ∀ {l : List TComp} {g g' : GraphOut}, genTreeAux g l = Except.ok g' →
      ∀ e ∈ g'.allEdges, e ∈ g.allEdges ∨
        ∃ c ∈ l, ∃ de ∈ c.dependencies?.getD [], depEntryName de = some e.2.1 := by
  intro l
  induction l with
  | nil =>
    intro g g' h e he
    unfold genTreeAux at h; cases h
    exact Or.inl he
  | cons c rest ih =>
    intro g g' h e he
    unfold genTreeAux at h
    cases hpc : processComponent g c with
    | error msg => rw [hpc] at h; cases h
    | ok g1 =>
      rw [hpc] at h
      rcases ih h e he with h1 | ⟨c', hc', h2⟩
      · rcases processComponent_edges hpc e h1 with h2 | h2
        · exact Or.inl h2
        · exact Or.inr ⟨c, List.mem_cons_self _ _, h2⟩
      · exact Or.inr ⟨c', List.mem_cons_of_mem _ hc', h2⟩

/-! ## Helper lemmas about the normalizer and the global-dependency pass -/

/-- Every processed component extends itself. -/
theorem extendsDep_refl (d : DepInfo) : ExtendsDep d d :=
  ⟨rfl, rfl, rfl, rfl, rfl, rfl, rfl, [], (List.append_nil _).symm⟩

/-- Extension of processed components is transitive. -/
theorem extendsDep_trans {a b c : DepInfo} (h1 : ExtendsDep a b) (h2 : ExtendsDep b c) :
    ExtendsDep a c := by
  obtain ⟨t1, n1, v1, g1, p1, pd1, e1, x1, hx1⟩ := h1
  obtain ⟨t2, n2, v2, g2, p2, pd2, e2, x2, hx2⟩ := h2
  refine ⟨t2.trans t1, n2.trans n1, v2.trans v1, g2.trans g1, p2.trans p1,
    pd2.trans pd1, e2.trans e1, x1 ++ x2, ?_⟩
  rw [hx2, hx1, List.append_assoc]

/-- One global-dependency entry only ever appends to a component's
dependency list, leaving every other field unchanged. -/
theorem applyGlobalDepOne_extends (gd : GlobalDep) (d : DepInfo) :
    ExtendsDep d (applyGlobalDepOne gd d) := by
  unfold applyGlobalDepOne
  split
  · exact ⟨rfl, rfl, rfl, rfl, rfl, rfl, rfl, _, rfl⟩
  · exact extendsDep_refl d

/-- The global-dependency pass preserves the number of processed
components. -/
theorem foldl_agd_length :
    ∀ (gds : List GlobalDep) (ds : List DepInfo),
      (gds.foldl applyGlobalDep ds).length = ds.length := by
  intro gds
  induction gds with
  | nil => intro ds; rfl
  | cons gd rest ih =>
    intro ds
    show (rest.foldl applyGlobalDep (applyGlobalDep ds gd)).length = _
    rw [ih, applyGlobalDep, List.length_map]

/-- The global-dependency pass transforms the component at each position
into an extension of it. -/
theorem foldl_agd_getElem? :
    ∀ (gds : List GlobalDep) (ds : List DepInfo) (i : Nat) (d0 : DepInfo),
      ds[i]? = some d0 →
      ∃ d, (gds.foldl applyGlobalDep ds)[i]? = some d ∧ ExtendsDep d0 d := by
  intro gds
  induction gds with
  | nil => intro ds i d0 h; exact ⟨d0, h, extendsDep_refl d0⟩
  | cons gd rest ih =>
    intro ds i d0 h
    have h1 : (applyGlobalDep ds gd)[i]? = some (applyGlobalDepOne gd d0) := by
      rw [applyGlobalDep, List.getElem?_map, h]; rfl
    obtain ⟨d, hd, hext⟩ := ih (applyGlobalDep ds gd) i _ h1
    exact ⟨d, hd, extendsDep_trans (applyGlobalDepOne_extends gd d0) hext⟩

/-- Every component in the output of the global-dependency pass is an
extension of some component of its input. -/
theorem foldl_agd_mem :
    ∀ (gds : List GlobalDep) (ds : List DepInfo) (d : DepInfo),
      d ∈ gds.foldl applyGlobalDep ds → ∃ d0 ∈ ds, ExtendsDep d0 d := by
  intro gds
  induction gds with
  | nil => intro ds d h; exact ⟨d, h, extendsDep_refl d⟩
  | cons gd rest ih =>
    intro ds d h
    obtain ⟨d1, hd1, hext1⟩ := ih (applyGlobalDep ds gd) d h
    rw [applyGlobalDep] at hd1
    obtain ⟨d0, hd0, h2⟩ := List.mem_map.mp hd1
    exact ⟨d0, hd0, extendsDep_trans (h2 ▸ applyGlobalDepOne_extends gd d0) hext1⟩

/-- The normalizer yields exactly one processed entry per top-level
component. -/
theorem process_length (s : Sbom) :
    (process_cyclonedx_sbom s).length = (s.components?.getD []).length := by
  rw [process_cyclonedx_sbom, foldl_agd_length, List.length_map]

/-- The processed entry at position `i` extends the plain `mkDepInfo`
record of the component at position `i`. -/
theorem process_getElem? {s : Sbom} {i : Nat} {comp : CdxComp}
    (h : (s.components?.getD [])[i]? = some comp) :
    ∃ d, (process_cyclonedx_sbom s)[i]? = some d ∧ ExtendsDep (mkDepInfo comp) d := by
  apply foldl_agd_getElem?
  rw [List.getElem?_map, h]; rfl

/-- Every processed entry extends the `mkDepInfo` record of some top-level
component of the document. -/
theorem process_mem {s : Sbom} {d : DepInfo} (h : d ∈ process_cyclonedx_sbom s) :
    ∃ comp ∈ s.components?.getD [], ExtendsDep (mkDepInfo comp) d := by
  obtain ⟨d0, hd0, hext⟩ := foldl_agd_mem _ _ _ h
  obtain ⟨comp, hcomp, h2⟩ := List.mem_map.mp hd0
  exact ⟨comp, hcomp, h2 ▸ hext⟩

/-- A pedigree entry does not depend on the ancestor's own `name` field. -/
theorem mkPedEntry_eraseAnc (a : PedAncestor) : mkPedEntry (eraseAnc a) = mkPedEntry a := rfl

/-- Erasing ancestor names in a component erases them in its ancestor
list. -/
theorem ancestorsOf_eraseComp (c : CdxComp) :
    ancestorsOf (eraseComp c) = (ancestorsOf c).map eraseAnc := by
  unfold ancestorsOf eraseComp
  cases hp : c.pedigree? with
  | none => rfl
  | some p => cases ha : p.ancestors? <;> simp [ha]

/-- Processing one component ignores the `name` fields of its pedigree
ancestors. -/
theorem mkDepInfo_eraseComp (c : CdxComp) : mkDepInfo (eraseComp c) = mkDepInfo c := by
  have hfun : mkPedEntry ∘ eraseAnc = mkPedEntry := funext fun a => rfl
  unfold mkDepInfo
  rw [ancestorsOf_eraseComp, List.map_map, hfun]
  rfl

/-- The whole normalizer ignores the `name` fields of pedigree ancestors. -/
theorem process_erase (s : Sbom) :
    process_cyclonedx_sbom (eraseAncestorNames s) = process_cyclonedx_sbom s := by
  unfold process_cyclonedx_sbom
  have h2 : ((eraseAncestorNames s).components?.getD []).map mkDepInfo
      = (s.components?.getD []).map mkDepInfo := by
    unfold eraseAncestorNames
    cases hc : s.components? with
    | none => rfl
    | some l =>
      have hfun : mkDepInfo ∘ eraseComp = mkDepInfo := funext mkDepInfo_eraseComp
      simp [List.map_map, hfun]
  rw [h2]
  rfl

/-! ## Helper lemmas about the vulnerability report -/

/-- The report and the call trace are precisely the per-entry lookups, in
order. -/
theorem check_all_aux_eq (env : String → Option Nat) :
    ∀ ds : List DepInfo,
      check_all_aux env ds =
        (ds.map fun d => (d.name, check_vulnerabilities env d.name),
         ds.map fun d => d.name) := by
  intro ds
  induction ds with
  | nil => rfl
  | cons d rest ih => simp [check_all_aux, ih]

/-- Lookup of a key never written returns nothing. -/
theorem dictGet_not_mem {l : List (String × VulnOutcome)} {k : String}
    (h : ∀ p ∈ l, p.1 ≠ k) : dictGet l k = none := by
  induction l with
  | nil => rfl
  | cons p rest ih =>
    rcases p with ⟨k', v⟩
    have h1 : dictGet rest k = none := ih fun q hq => h q (List.mem_cons_of_mem _ hq)
    unfold dictGet
    rw [h1]
    have h2 : k' ≠ k := h (k', v) (List.mem_cons_self _ _)
    simp [h2]

/-- Lookup of a key present in the report gives the result of that key's
own lookup (all writes to a key carry the same value, so the last write
also does). -/
theorem dictGet_mapped (env : String → Option Nat) :
    ∀ (ds : List DepInfo) (k : String), k ∈ ds.map (fun d => d.name) →
      dictGet (ds.map fun d => (d.name, check_vulnerabilities env d.name)) k
        = some (check_vulnerabilities env k) := by
  intro ds
  induction ds with
  | nil => intro k hk; simp at hk
  | cons d rest ih =>
    intro k hk
    by_cases hmem : k ∈ rest.map (fun d => d.name)
    · have h1 := ih k hmem
      simp only [List.map_cons]
      unfold dictGet
      rw [h1]
    · have h1 : dictGet (rest.map fun d => (d.name, check_vulnerabilities env d.name)) k
          = none := by
        apply dictGet_not_mem
        intro p hp hkk
        obtain ⟨d', hd', h2⟩ := List.mem_map.mp hp
        apply hmem
        rw [← h2] at hkk
        exact List.mem_map.mpr ⟨d', hd', hkk⟩
      have hk2 : k = d.name := by
        simp only [List.map_cons, List.mem_cons] at hk
        exact hk.resolve_right hmem
      simp only [List.map_cons]
      unfold dictGet
      rw [h1, hk2]
      simp

/-- Lookup of a processed entry's name in the full report yields the result
of that entry's own vulnerability lookup. -/
theorem dictGet_report (env : String → Option Nat) (ds : List DepInfo) (k : String)
    (hk : k ∈ ds.map fun d => d.name) :
    dictGet (check_all_vulnerabilites env ds) k = some (check_vulnerabilities env k) := by
  unfold check_all_vulnerabilites
  rw [check_all_aux_eq]
  exact dictGet_mapped env ds k hk

/-! ## Helper lemmas about the state-threaded projection -/

/-- One step of the state-threaded loop returns the store unchanged. -/
theorem genTreeStStep_snd (acc : Except String GraphOut × List TComp) (i : Nat) :
    (genTreeStStep acc i).2 = acc.2 := by
  rcases acc with ⟨r, st⟩
  unfold genTreeStStep
  cases r with
  | error msg => rfl
  | ok g => cases st[i]? <;> rfl

/-- The whole state-threaded loop returns the store unchanged. -/
theorem foldl_genTreeStStep_snd :
    ∀ (is : List Nat) (acc : Except String GraphOut × List TComp),
      (List.foldl genTreeStStep acc is).2 = acc.2 := by
  intro is
  induction is with
  | nil => intro acc; rfl
  | cons i rest ih =>
    intro acc
    show (List.foldl genTreeStStep (genTreeStStep acc i) rest).2 = acc.2
    rw [ih, genTreeStStep_snd]

/-- A matching component really takes the then-branch of the
global-dependency update. -/
theorem applyGlobalDepOne_match {gd : GlobalDep} {d : DepInfo}
    (h : d.name = gd.ref?.getD "" ∨ d.purl = gd.ref?.getD "") :
    (applyGlobalDepOne gd d).dependencies
      = d.dependencies ++ (gd.dependsOn?.getD []).map DepEntry.str := by
  unfold applyGlobalDepOne
  have hb : (d.name == gd.ref?.getD "" || d.purl == gd.ref?.getD "") = true := by
    rcases h with h | h <;> simp [h]
  rw [if_pos hb]

/-- Every `dependsOn` string of a global entry ends up in the dependency
list of every component matching that entry's `ref` (component names and
purls never change during the pass, and later passes only append). -/
theorem foldl_agd_records :
    ∀ (gds : List GlobalDep) (ds : List DepInfo) (gd : GlobalDep) (t : String),
      gd ∈ gds → t ∈ gd.dependsOn?.getD [] →
      ∀ d ∈ gds.foldl applyGlobalDep ds,
        (d.name = gd.ref?.getD "" ∨ d.purl = gd.ref?.getD "") →
        DepEntry.str t ∈ d.dependencies := by
  intro gds
  induction gds with
  | nil => intro ds gd t hgd; exact absurd hgd (List.not_mem_nil gd)
  | cons gd0 rest ih =>
    intro ds gd t hgd ht d hd hmatch
    rw [List.foldl_cons] at hd
    rcases List.mem_cons.mp hgd with heq | hmem
    · subst heq
      obtain ⟨d1, hd1, hext⟩ := foldl_agd_mem rest (applyGlobalDep ds gd) d hd
      rw [applyGlobalDep] at hd1
      obtain ⟨d0, hd0, hone⟩ := List.mem_map.mp hd1
      obtain ⟨-, hn1, -, -, hp1, -, -, extra, hdeps⟩ := hext
      have hpres := applyGlobalDepOne_extends gd d0
      obtain ⟨-, hn0, -, -, hp0, -, -, -⟩ := hpres
      have hmatch0 : d0.name = gd.ref?.getD "" ∨ d0.purl = gd.ref?.getD "" := by
        rcases hmatch with h | h
        · left; rw [← hn0, hone, ← hn1]; exact h
        · right; rw [← hp0, hone, ← hp1]; exact h
      have hdeps1 : d1.dependencies
          = d0.dependencies ++ (gd.dependsOn?.getD []).map DepEntry.str := by
        rw [← hone]; exact applyGlobalDepOne_match hmatch0
      rw [hdeps, hdeps1]
      apply List.mem_append_left
      apply List.mem_append_right
      exact List.mem_map.mpr ⟨t, ht, rfl⟩
    · exact ih (applyGlobalDep ds gd0) gd t hmem ht d hd hmatch

/-- Normalizer-level form of `foldl_agd_records`. -/
theorem process_records (s : Sbom) (gd : GlobalDep) (t : String)
    (hgd : gd ∈ s.dependencies?.getD []) (ht : t ∈ gd.dependsOn?.getD [])
    (d : DepInfo) (hd : d ∈ process_cyclonedx_sbom s)
    (hmatch : d.name = gd.ref?.getD "" ∨ d.purl = gd.ref?.getD "") :
    DepEntry.str t ∈ d.dependencies :=
  foldl_agd_records (s.dependencies?.getD []) ((s.components?.getD []).map mkDepInfo)
    gd t hgd ht d hd hmatch

/-- A dependency list containing a raw string with `"name"` as a substring
makes the edge loop raise. -/
theorem depEdges_error_of_bad :
    ∀ (src : String) (ds : List DepEntry) (sc : String),
      DepEntry.str sc ∈ ds → containsSub nameChars sc.toList = true →
      ∃ msg, depEdges src ds = Except.error msg := by
  intro src ds
  induction ds with
  | nil => intro sc h; exact absurd h (List.not_mem_nil _)
  | cons de rest ih =>
    intro sc hmem hbad
    cases hde : depEdge src de with
    | error msg => exact ⟨msg, by unfold depEdges; rw [hde]⟩
    | ok e? =>
      have hrest : DepEntry.str sc ∈ rest := by
        rcases List.mem_cons.mp hmem with heq | h
        · exfalso
          rw [← heq] at hde
          simp only [depEdge] at hde
          rw [if_pos hbad] at hde
          cases hde
        · exact h
      obtain ⟨msg, hmsg⟩ := ih sc hrest hbad
      cases e? with
      | none => exact ⟨msg, by unfold depEdges; rw [hde]; exact hmsg⟩
      | some e0 => exact ⟨msg, by unfold depEdges; rw [hde, hmsg]⟩

/-- A named component whose edge loop raises makes the whole component
step raise. -/
theorem processComponent_error {g : GraphOut} {c : TComp} {cname : String} {msg : String}
    (hn : c.name? = some cname)
    (hd : depEdges cname (c.dependencies?.getD []) = Except.error msg) :
    processComponent g c = Except.error msg := by
  unfold processComponent
  rw [hn]
  simp only []
  cases hf : clustersFind g.clusters (c.cluster?.getD "default") <;> rw [hd]

/-- If every input component is named and some component's dependency list
holds a raw string containing `"name"`, the component loop raises. -/
theorem genTreeAux_error :
    ∀ (l : List TComp) (g : GraphOut),
      (∀ c ∈ l, (c.name?).isSome = true) →
      (∃ c ∈ l, ∃ sc, DepEntry.str sc ∈ c.dependencies?.getD [] ∧
        containsSub nameChars sc.toList = true) →
      ∃ msg, genTreeAux g l = Except.error msg := by
  intro l
  induction l with
  | nil =>
    intro g hnames hex
    obtain ⟨c, hc, -⟩ := hex
    exact absurd hc (List.not_mem_nil c)
  | cons c0 rest ih =>
    intro g hnames hex
    obtain ⟨c, hc, sc, hsc, hbad⟩ := hex
    rcases List.mem_cons.mp hc with heq | hmem
    · subst heq
      have hsome := hnames c (List.mem_cons_self _ _)
      obtain ⟨cname, hcname⟩ := Option.isSome_iff_exists.mp hsome
      obtain ⟨msg, hmsg⟩ := depEdges_error_of_bad cname (c.dependencies?.getD []) sc hsc hbad
      refine ⟨msg, ?_⟩
      unfold genTreeAux
      rw [processComponent_error hcname hmsg]
    · cases hpc : processComponent g c0 with
      | error msg => exact ⟨msg, by unfold genTreeAux; rw [hpc]⟩
      | ok g1 =>
        obtain ⟨msg, hmsg⟩ := ih g1 (fun c' hc' => hnames c' (List.mem_cons_of_mem _ hc'))
          ⟨c, hmem, sc, hsc, hbad⟩
        exact ⟨msg, by unfold genTreeAux; rw [hpc]; exact hmsg⟩

/-! ## Claim theorems -/

/-- C1 (counterexample): for the spec's own scenario — components
`{A v1, B v2, C v1}` with the global edge `A dependsOn ["Z"]` where no
component `Z` exists — the code produces a graph with exactly the nodes
`A`, `B`, `C` and the single edge `A → B`: there is no synthetic Unknown
node labelled `"Z"` and no edge from `A` to such a node, contradicting the
claim. -/
theorem c1_counterexample :
    pipeline_cyclonedx zSbom = Except.ok zGraph ∧
    zGraph.nodeNames = ["A", "B", "C"] ∧
    edgePairs zGraph = [("A", "B")] ∧
    "Z" ∉ zGraph.nodeNames ∧ ("A", "Z") ∉ edgePairs zGraph ∧
    zGraph.topEdges = [] :=
  ⟨rfl, by decide, by decide, by decide, by decide, rfl⟩

/-- C1 (amended): no synthetic Unknown node exists, and for every document
and target string three facts hold. (1) Processing itself never raises:
the raw target string is appended to the dependency list of every
processed component matching the referencing entry. (2) Raw strings
contribute nothing to a successfully built graph: every node bears the
name of some processed component and every edge's target is the recorded
name of some dict dependency entry of some processed component (a nested
child) — so a target matching no component and no nested child yields
neither a node nor an edge. (3) If the target string contains `"name"` as
a substring and some processed component matches the referencing entry,
graph construction raises a `TypeError` and the run aborts instead of
continuing. -/
theorem c1_unresolved_ref_dropped (s : Sbom) (t : String) :
    (∀ gd ∈ s.dependencies?.getD [], ∀ d ∈ process_cyclonedx_sbom s,
      t ∈ gd.dependsOn?.getD [] →
      (d.name = gd.ref?.getD "" ∨ d.purl = gd.ref?.getD "") →
      DepEntry.str t ∈ d.dependencies) ∧
    (∀ g, pipeline_cyclonedx s = Except.ok g →
      (∀ n ∈ g.nodeNames, ∃ d ∈ process_cyclonedx_sbom s, d.name = n) ∧
      (∀ e ∈ g.allEdges, ∃ d ∈ process_cyclonedx_sbom s,
        ∃ de ∈ d.dependencies, depEntryName de = some e.2.1)) ∧
    (containsSub nameChars t.toList = true →
      (∃ gd ∈ s.dependencies?.getD [], t ∈ gd.dependsOn?.getD [] ∧
        ∃ d ∈ process_cyclonedx_sbom s,
          d.name = gd.ref?.getD "" ∨ d.purl = gd.ref?.getD "") →
      ∃ msg, pipeline_cyclonedx s = Except.error msg) := by
  refine ⟨?_, ?_, ?_⟩
  · intro gd hgd d hd ht hmatch
    exact process_records s gd t hgd ht d hd hmatch
  · intro g hg
    unfold pipeline_cyclonedx generate_dependency_tree at hg
    constructor
    · intro n hn
      rcases genTreeAux_nodes hg n hn with h3 | ⟨c, hc, h4⟩
      · simp [GraphOut.nodeNames] at h3
      · obtain ⟨d, hd, h5⟩ := List.mem_map.mp hc
        refine ⟨d, hd, ?_⟩
        rw [← h5] at h4
        simpa [DepInfo.toT] using h4
    · intro e he
      rcases genTreeAux_edges hg e he with h3 | ⟨c, hc, de, hde, h4⟩
      · simp [GraphOut.allEdges] at h3
      · obtain ⟨d, hd, h5⟩ := List.mem_map.mp hc
        rw [← h5] at hde
        have hde' : de ∈ d.dependencies := by simpa [DepInfo.toT] using hde
        exact ⟨d, hd, de, hde', h4⟩
  · intro hbad hex
    obtain ⟨gd, hgd, ht, d, hd, hmatch⟩ := hex
    have hstr : DepEntry.str t ∈ d.dependencies := process_records s gd t hgd ht d hd hmatch
    have hnames : ∀ c ∈ (process_cyclonedx_sbom s).map DepInfo.toT, (c.name?).isSome = true := by
      intro c hc
      obtain ⟨d', -, h5⟩ := List.mem_map.mp hc
      rw [← h5]
      rfl
    obtain ⟨msg, hmsg⟩ := genTreeAux_error ((process_cyclonedx_sbom s).map DepInfo.toT)
      { clusters := [], topEdges := [] } hnames
      ⟨DepInfo.toT d, List.mem_map.mpr ⟨d, hd, rfl⟩, t, hstr, hbad⟩
    exact ⟨msg, hmsg⟩

/-- C1 (witness): in the `Z` scenario the raw string `"Z"` is recorded in
`A`'s processed dependency list and node `A` traces back to a processed
component; in the `"lib-name-2"` scenario graph construction raises. -/
theorem c1_unresolved_ref_dropped_witness :
    DepEntry.str "Z" ∈ zA.dependencies ∧
    (∃ d ∈ process_cyclonedx_sbom zSbom, d.name = "A") ∧
    (∃ msg, pipeline_cyclonedx nameSbom = Except.error msg) := by
  refine ⟨?_, ?_, ?_⟩
  · exact (c1_unresolved_ref_dropped zSbom "Z").1
      { ref? := some "A", dependsOn? := some ["Z"] } (by decide) zA (by decide)
      (by decide) (Or.inl (by decide))
  · exact ((c1_unresolved_ref_dropped zSbom "Z").2.1 zGraph rfl).1 "A" (by decide)
  · exact (c1_unresolved_ref_dropped nameSbom "lib-name-2").2.2 (by decide) (by decide)

/-- C2 (counterexample): two distinct dependency entries sharing the
identity `("A", "1")` cause two lookup calls, not one: the call trace has
length `2` while there is exactly one unique `(name, version)` identity. -/
theorem c2_counterexample :
    c2d1 ≠ c2d2 ∧
    (c2d1.name, c2d1.version) = (c2d2.name, c2d2.version) ∧
    (check_all_aux env200 [c2d1, c2d2]).2 = ["A", "A"] ∧
    (([c2d1, c2d2].map fun d => (d.name, d.version)).dedup).length = 1 ∧
    (check_all_aux env200 [c2d1, c2d2]).2.length ≠ 1 :=
  ⟨by decide, by decide, by decide, by decide, by decide⟩

/-- C2 (amended): the enrichment step performs no deduplication: it issues
exactly one lookup per dependency-list entry, keyed by the entry's name
alone, and every entry's name maps in the report table to the result of
that name's own lookup (entries sharing a name therefore observe the same
result, but repeated entries do cause repeated lookups). -/
theorem c2_lookup_per_entry (env : String → Option Nat) (ds : List DepInfo) (d : DepInfo)
    (hd : d ∈ ds) :
    (check_all_aux env ds).2 = ds.map (fun x => x.name) ∧
    dictGet (check_all_vulnerabilites env ds) d.name
      = some (check_vulnerabilities env d.name) := by
  refine ⟨?_, ?_⟩
  · rw [check_all_aux_eq]
  · exact dictGet_report env ds d.name (List.mem_map.mpr ⟨d, hd, rfl⟩)

/-- C2 (witness): applied to the duplicated-entry list. -/
theorem c2_lookup_per_entry_witness :
    c2d1 ∈ [c2d1, c2d2] ∧
    dictGet (check_all_vulnerabilites env200 [c2d1, c2d2]) c2d1.name
      = some (check_vulnerabilities env200 c2d1.name) :=
  ⟨by decide, (c2_lookup_per_entry env200 [c2d1, c2d2] c2d1 (by decide)).2⟩

/-- C3 (counterexample): for a document with one component `A` nesting
child `B`, the normalizer's output has exactly one top-level entry, named
`A`: the nested child `B` is recorded only as a dependency entry of `A`
and does not appear as its own top-level Component. -/
theorem c3_counterexample :
    (process_cyclonedx_sbom c3Sbom).map (fun d => d.name) = ["A"] ∧
    "B" ∉ (process_cyclonedx_sbom c3Sbom).map (fun d => d.name) ∧
    (process_cyclonedx_sbom c3Sbom)[0]? = some (mkDepInfo compA) ∧
    mkChildEntry subB ∈ (mkDepInfo compA).dependencies :=
  ⟨by decide, by decide, by decide, by decide⟩

/-- C3 (amended): each nested child becomes a dependency entry of its
parent's processed record, but not its own top-level Component: the output
has exactly one entry per top-level component, and the entry at the
parent's position contains the child as a dependency entry. -/
theorem c3_nested_child_edge_only (s : Sbom) (i : Nat) (comp : CdxComp) (sc : SubComp)
    (h1 : (s.components?.getD [])[i]? = some comp)
    (h2 : sc ∈ comp.components?.getD []) :
    (process_cyclonedx_sbom s).length = (s.components?.getD []).length ∧
    ∃ d, (process_cyclonedx_sbom s)[i]? = some d ∧ mkChildEntry sc ∈ d.dependencies := by
  refine ⟨process_length s, ?_⟩
  obtain ⟨d, hd, hext⟩ := process_getElem? h1
  refine ⟨d, hd, ?_⟩
  obtain ⟨-, -, -, -, -, -, -, extra, hdeps⟩ := hext
  rw [hdeps]
  apply List.mem_append_left
  exact List.mem_map.mpr ⟨sc, h2, rfl⟩

/-- C3 (witness): applied to the one-component document nesting `B`. -/
theorem c3_nested_child_edge_only_witness :
    (process_cyclonedx_sbom c3Sbom).length = (c3Sbom.components?.getD []).length ∧
    ∃ d, (process_cyclonedx_sbom c3Sbom)[0]? = some d ∧ mkChildEntry subB ∈ d.dependencies :=
  c3_nested_child_edge_only c3Sbom 0 compA subB rfl (by decide)

/-- C4 (counterexample): for the spec's concrete scenario the constructed
graph does not contain the edge `A → C`: the global edge is dropped, so the
claimed edge set `{A → B, A → C}` is wrong. -/
theorem c4_counterexample :
    pipeline_cyclonedx c4Sbom = Except.ok c4Graph ∧
    ("A", "C") ∉ edgePairs c4Graph :=
  ⟨rfl, by decide⟩

/-- C4 (amended): the scenario document yields a graph with exactly the
nodes `A`, `B`, `C`, exactly the single edge `A → B` (the global
`A dependsOn ["C"]` edge is dropped), no top-level edges and zero Unknown
nodes. -/
theorem c4_actual_graph :
    pipeline_cyclonedx c4Sbom = Except.ok c4Graph ∧
    c4Graph.nodeNames = ["A", "B", "C"] ∧
    edgePairs c4Graph = [("A", "B")] ∧
    c4Graph.topEdges = [] :=
  ⟨rfl, by decide, by decide, rfl⟩

/-- C5 (counterexample): for the input `{X in cluster c1 depending on Y,
Y in cluster c2}` the cross-cluster edge `X → Y` is emitted inside cluster
`c1`'s subgraph although `Y` is not one of `c1`'s nodes, and no edge is
emitted at the top level: per-cluster subgraphs are not restricted to
intra-cluster edges and cross-cluster edges are not emitted separately. -/
theorem c5_counterexample :
    generate_dependency_tree c5in = Except.ok c5Graph ∧
    ("c1", c5cl1) ∈ c5Graph.clusters ∧
    ("X", "Y", "Version: Unknown") ∈ c5cl1.edges ∧
    "Y" ∉ clusterNodeNames c5cl1 ∧
    c5Graph.topEdges = [] :=
  ⟨rfl, by decide, by decide, by decide, rfl⟩

/-- C5 (amended): every emitted edge is placed in the subgraph of its
source component's cluster — its source is among that cluster's own
nodes — regardless of where the target lives, and the top level receives
no edges at all. -/
theorem c5_edge_stays_in_source_cluster (l : List TComp) (g : GraphOut) (k : String)
    (cl : ClusterG) (e : String × String × String)
    (hg : generate_dependency_tree l = Except.ok g)
    (hcl : (k, cl) ∈ g.clusters) (he : e ∈ cl.edges) :
    e.1 ∈ clusterNodeNames cl ∧ g.topEdges = [] := by
  unfold generate_dependency_tree at hg
  constructor
  · exact genTreeAux_edges_in_cluster hg
      (fun p hp => (List.not_mem_nil p hp).elim) (k, cl) hcl e he
  · rw [genTreeAux_topEdges hg]

/-- C5 (witness): applied to the cross-cluster scenario. -/
theorem c5_edge_stays_in_source_cluster_witness :
    "X" ∈ clusterNodeNames c5cl1 ∧ c5Graph.topEdges = [] :=
  c5_edge_stays_in_source_cluster c5in c5Graph "c1" c5cl1 ("X", "Y", "Version: Unknown")
    rfl (by decide) (by decide)

/-- C6: a request exception or a non-200 response for one entry resolves
that entry's report slot to a no-data value (the `{}` dict or Python's
implicit `None`), while every entry of the list — the failing one
included — still gets its own lookup's result recorded in the report. -/
theorem c6_lookup_failure_isolated (env : String → Option Nat) (ds : List DepInfo)
    (d : DepInfo) (hd : d ∈ ds)
    (hfail : env d.name = none ∨ ∃ code, env d.name = some code ∧ code ≠ 200) :
    (dictGet (check_all_vulnerabilites env ds) d.name = some VulnOutcome.emptyDict ∨
      dictGet (check_all_vulnerabilites env ds) d.name = some VulnOutcome.pyNone) ∧
    ∀ d2 ∈ ds, dictGet (check_all_vulnerabilites env ds) d2.name
      = some (check_vulnerabilities env d2.name) := by
  have hall : ∀ d2 ∈ ds, dictGet (check_all_vulnerabilites env ds) d2.name
      = some (check_vulnerabilities env d2.name) :=
    fun d2 hd2 => dictGet_report env ds d2.name (List.mem_map.mpr ⟨d2, hd2, rfl⟩)
  refine ⟨?_, hall⟩
  have h1 := hall d hd
  rcases hfail with hf | ⟨code, hc, hne⟩
  · left
    rw [h1]
    simp [check_vulnerabilities, hf]
  · right
    rw [h1]
    have h2 : (code == 200) = false := by simpa using hne
    simp [check_vulnerabilities, hc, h2]

/-- C6 (witness): with the environment where the request for `A` raises
and `B` answers 200, `A`'s slot resolves to a no-data value. -/
theorem c6_lookup_failure_isolated_witness :
    c6dA ∈ [c6dA, c6dB] ∧
    (dictGet (check_all_vulnerabilites env6 [c6dA, c6dB]) c6dA.name
        = some VulnOutcome.emptyDict ∨
      dictGet (check_all_vulnerabilites env6 [c6dA, c6dB]) c6dA.name
        = some VulnOutcome.pyNone) :=
  ⟨by decide,
    (c6_lookup_failure_isolated env6 [c6dA, c6dB] c6dA (by decide) (Or.inl rfl)).1⟩

/-- C8: normalization is deterministic: two runs of `process_sbom` on the
same document and format tag yield equal lists, equal element-for-element
at every position. -/
theorem c8_normalization_deterministic (s : Sbom) (fmt : String) (l1 l2 : List ProcEntry)
    (h1 : process_sbom s fmt = l1) (h2 : process_sbom s fmt = l2) :
    l1 = l2 ∧ l1.length = l2.length ∧ ∀ i : Nat, l1[i]? = l2[i]? := by
  subst h1
  subst h2
  exact ⟨rfl, rfl, fun i => rfl⟩

/-- C8 (witness): applied to the concrete scenario document. -/
theorem c8_normalization_deterministic_witness :
    process_sbom c4Sbom "cyclonedx" = process_sbom c4Sbom "cyclonedx" :=
  (c8_normalization_deterministic c4Sbom "cyclonedx" _ _ rfl rfl).1

/-- C9: the cluster projection is read-only with respect to its input: the
state-threaded translation of `generate_dependency_tree` returns its input
component list unchanged, every component dict and nested dependency entry
included. -/
theorem c9_projection_leaves_input_unchanged (store : List TComp) :
    (generate_dependency_tree_st store).2 = store := by
  unfold generate_dependency_tree_st
  rw [foldl_genTreeStStep_snd]

/-- C10: every pedigree entry recorded in the normalized output has its
`name` attribute equal to its `type` attribute — both are set from the
ancestor's `type` field with default `"Unknown"` — and the normalizer's
output is unchanged when every ancestor's own `name` field is erased, so
that field is never recorded. -/
theorem c10_pedigree_name_from_type (s : Sbom) (d : DepInfo) (pe : PedEntry)
    (hd : d ∈ process_cyclonedx_sbom s) (hpe : pe ∈ d.pedigree) :
    pe.name = pe.type ∧
    (∃ a : PedAncestor, pe = mkPedEntry a ∧ pe.name = a.type?.getD "Unknown") ∧
    process_cyclonedx_sbom (eraseAncestorNames s) = process_cyclonedx_sbom s := by
  obtain ⟨comp, hcomp, hext⟩ := process_mem hd
  obtain ⟨-, -, -, -, -, hped, -, -⟩ := hext
  rw [hped] at hpe
  have hpe2 : pe ∈ (ancestorsOf comp).map mkPedEntry := hpe
  obtain ⟨a, ha, h2⟩ := List.mem_map.mp hpe2
  subst h2
  exact ⟨rfl, ⟨a, rfl, rfl⟩, process_erase s⟩

/-- C10 (witness): applied to a document whose single component has one
ancestor with `type "git"` and its own `name "orig-name"`. -/
theorem c10_pedigree_name_from_type_witness :
    (mkPedEntry c10anc).name = (mkPedEntry c10anc).type ∧
    (∃ a : PedAncestor, mkPedEntry c10anc = mkPedEntry a ∧
      (mkPedEntry c10anc).name = a.type?.getD "Unknown") ∧
    process_cyclonedx_sbom (eraseAncestorNames c10Sbom) = process_cyclonedx_sbom c10Sbom :=
  c10_pedigree_name_from_type c10Sbom c10d (mkPedEntry c10anc) (by decide) (by decide)

/-- C7: every edge of a successfully constructed graph has its source
present among the graph's nodes: the source node is added to the cluster
before any of its edges are issued. -/
theorem c7_edge_source_present (l : List TComp) (g : GraphOut) (e : String × String × String)
    (hg : generate_dependency_tree l = Except.ok g) (he : e ∈ g.allEdges) :
    e.1 ∈ g.nodeNames := by
  unfold generate_dependency_tree at hg
  have hP := genTreeAux_edges_in_cluster hg (fun p hp => (List.not_mem_nil p hp).elim)
  have htop := genTreeAux_topEdges hg
  rw [GraphOut.allEdges] at he
  rcases List.mem_append.mp he with h1 | h2
  · rw [List.mem_flatMap] at h1
    obtain ⟨p, hp, hep⟩ := h1
    have h3 := hP p hp e hep
    rw [GraphOut.nodeNames]
    exact List.mem_flatMap.mpr ⟨p, hp, h3⟩
  · rw [htop] at h2
    exact (List.not_mem_nil e h2).elim

/-- C7 (witness): applied to a single component `A` with one named
dependency `B`. -/
theorem c7_edge_source_present_witness : "A" ∈ c7Graph.nodeNames :=
  c7_edge_source_present c7in c7Graph ("A", "B", "Version: Unknown") rfl (by decide)
